import Mathlib

/-!
Verification development for the `table_sync` reconciliation pipeline.

The definitions below are a shallow embedding of the Python sources:
  * `src/logic/comparator.py`  — value sanitization, equality, row hashing,
    row comparison (`sanitize`, `values_equal`, `normalize_value`,
    `compute_row_hash`, `compare_rows`, `compare_row_pair_by_pk`, and the
    per-column kernel of `compare_row_pairs_serial`);
  * `src/scripts/reconcile_runner.py` — the merge walk `row_pairs`;
  * `src/logic/reporter.py` — the `DiscrepancyWriter` sink
    (`_prepare_table`, `write`, `flush`, `_create_temp_table`,
    `_bulk_insert_temp`, `_merge_temp_into_target`);
  * `src/scripts/fix_mismatches.py` — the partition repair pass.

Python dynamic values are embedded as the inductive type `Value`.  The
behaviour of the third-party helpers the code calls (`float(...)`,
`dateutil.parser.parse`, `xxhash.xxh64`) is embedded concretely:
`float` string parsing on plain decimal literals, date parsing on
ISO `YYYY-MM-DD[ HH:MM:SS[.ffff]]` forms (all other strings fail, as the
concrete inputs used in the theorems do under `dateutil`), and a full
implementation of the public XXH64 algorithm.
-/

namespace TableSync

/-- An exact rational, numerator over positive denominator, kept in
lowest terms by the smart constructor `ratMk`; stands for a Python float
value (Python floats are dyadic rationals, and every concrete float used
here is represented exactly). -/
structure PyRat where
  n : Int
  d : Nat
deriving DecidableEq, Repr

/-- Build a reduced fraction from a numerator and positive denominator. -/
def ratMk (n : Int) (d : Nat) : PyRat :=
  let g := Nat.gcd n.natAbs d
  ⟨n / (g : Int), d / g⟩

/-- The integer `i` as a `PyRat`. -/
def ratOfInt (i : Int) : PyRat := ⟨i, 1⟩

/-- `abs(x - y) < 1e-5` on exact fractions: cross-multiplying the
positive denominators, `|x.n·y.d - y.n·x.d| · 100000 < x.d · y.d · 1`. -/
def ratWithinTol (x y : PyRat) : Bool :=
  100000 * (x.n * (y.d : Int) - y.n * (x.d : Int)).natAbs < x.d * y.d

/-- Dynamic value domain of a row record (spec §3): null, integer, float
(`num`, an exact rational standing for the parsed numeric value), date,
datetime and string.  `Decimal` values behave like their float image
under `float(...)` and are covered by `num`. -/
inductive Value where
  | null : Value
  | intv : Int → Value
  | num : PyRat → Value
  | date : Nat → Nat → Nat → Value
  | dt : Nat → Nat → Nat → Nat → Nat → Nat → Value
  | str : String → Value
deriving DecidableEq, Repr

/-- Left-pad a string with zeros to the given width. -/
def padZeros (w : Nat) (s : String) : String :=
  if s.length < w then String.mk (List.replicate (w - s.length) '0') ++ s else s

/-- Decimal rendering of a nonnegative rational whose reduced denominator
divides a power of ten, in Python `str(float)` shortest-exact style
(`18.2`, `1.0`).  Values outside that range do not occur in this
development. -/
def decimalRender (a : PyRat) : String :=
  match (List.range 31).find? (fun k => (a.n * 10 ^ k) % (a.d : Int) == 0) with
  | none => "<nondecimal>"
  | some k =>
    let n := ((a.n * 10 ^ k) / (a.d : Int)).toNat
    if k == 0 then toString n ++ ".0"
    else toString (n / 10 ^ k) ++ "." ++ padZeros k (toString (n % 10 ^ k))

/-- Python `str(float)` for the rationals representing floats here. -/
def floatStr (q : PyRat) : String :=
  if q.n < 0 then "-" ++ decimalRender ⟨-q.n, q.d⟩ else decimalRender q

/-- Python `str(value)` on the value domain: `str(None) = "None"`, integers
without a decimal point, floats via `floatStr`, dates as `YYYY-MM-DD`,
datetimes as `YYYY-MM-DD HH:MM:SS`, strings unchanged. -/
def pyStr (v : Value) : String :=
  match v with
  | .null => "None"
  | .intv i => toString i
  | .num q => floatStr q
  | .date y mo d => padZeros 4 (toString y) ++ "-" ++ padZeros 2 (toString mo) ++ "-" ++ padZeros 2 (toString d)
  | .dt y mo d h mi s =>
      padZeros 4 (toString y) ++ "-" ++ padZeros 2 (toString mo) ++ "-" ++ padZeros 2 (toString d)
        ++ " " ++ padZeros 2 (toString h) ++ ":" ++ padZeros 2 (toString mi) ++ ":" ++ padZeros 2 (toString s)
  | .str s => s

/-- Python `s.strip()`: drop leading and trailing whitespace. -/
def pyStrip (s : String) : String :=
  String.mk (((s.data.dropWhile Char.isWhitespace).reverse.dropWhile Char.isWhitespace).reverse)

/-- Numeric value of a nonempty all-digit character list. -/
def digitsVal (cs : List Char) : Option Nat :=
  if cs ≠ [] ∧ cs.all Char.isDigit then
    some (cs.foldl (fun a c => a * 10 + (c.toNat - 48)) 0)
  else none

/-- Python `float(s)` on plain decimal string literals: surrounding
whitespace stripped, optional sign, digits with at most one decimal point
and at least one digit.  All other strings raise (`none`). -/
def pyParseFloat (s : String) : Option PyRat :=
  let cs := (pyStrip s).data
  let (sgn, cs) :=
    match cs with
    | '-' :: rest => ((-1 : Int), rest)
    | '+' :: rest => ((1 : Int), rest)
    | _ => ((1 : Int), cs)
  let ip := cs.takeWhile (· ≠ '.')
  match cs.dropWhile (· ≠ '.') with
  | [] =>
    match digitsVal ip with
    | some n => some (ratMk (sgn * n) 1)
    | none => none
  | '.' :: fp =>
    if ip.all Char.isDigit ∧ fp.all Char.isDigit ∧ (ip ≠ [] ∨ fp ≠ []) then
      let ipv : Nat := ip.foldl (fun a c => a * 10 + (c.toNat - 48)) 0
      let fpv : Nat := fp.foldl (fun a c => a * 10 + (c.toNat - 48)) 0
      some (ratMk (sgn * (ipv * 10 ^ fp.length + fpv)) (10 ^ fp.length))
    else none
  | _ => none

/-- Python `float(value)` on the value domain: numbers pass through,
strings are parsed, `None`, dates and datetimes raise (`none`). -/
def tryFloat (v : Value) : Option PyRat :=
  match v with
  | .null => none
  | .intv i => some (ratOfInt i)
  | .num q => some q
  | .date _ _ _ => none
  | .dt _ _ _ _ _ _ => none
  | .str s => pyParseFloat s

/-- `HH:MM:SS` with optional fractional seconds. -/
def isTimeChars : List Char → Bool
  | h1 :: h2 :: ':' :: m1 :: m2 :: ':' :: s1 :: s2 :: rest =>
    [h1, h2, m1, m2, s1, s2].all Char.isDigit &&
      (rest.isEmpty ||
        (match rest with
         | '.' :: fr => !fr.isEmpty && fr.all Char.isDigit
         | _ => false))
  | _ => false

/-- `dateutil.parser.parse(s).date()` on the ISO forms used by this
code base: `YYYY-MM-DD` optionally followed by a space and a time of day.
Other strings raise (`none`). -/
def parseDateStr (s : String) : Option (Nat × Nat × Nat) :=
  match s.data with
  | y1 :: y2 :: y3 :: y4 :: '-' :: m1 :: m2 :: '-' :: d1 :: d2 :: rest =>
    if [y1, y2, y3, y4, m1, m2, d1, d2].all Char.isDigit &&
        (rest.isEmpty ||
          (match rest with
           | ' ' :: t => isTimeChars t
           | _ => false)) then
      let dv := fun (a b : Char) => (a.toNat - 48) * 10 + (b.toNat - 48)
      let mo := dv m1 m2
      let d := dv d1 d2
      if 1 ≤ mo ∧ mo ≤ 12 ∧ 1 ≤ d ∧ d ≤ 31 then
        some ((dv y1 y2) * 100 + dv y3 y4, mo, d)
      else none
    else none
  | _ => none

/-- `dateutil.parser.parse(str(value)).date()`. -/
def tryDate (v : Value) : Option (Nat × Nat × Nat) :=
  parseDateStr (pyStr v)

/-- `sanitize` from `src/logic/comparator.py`: `None` stays `None`, then
`float(value)` is attempted, then `parser.parse(str(value)).date()`, and
otherwise `str(value).strip()`. -/
def sanitize (v : Value) : Value :=
  match v with
  | .null => .null
  | w =>
    match tryFloat w with
    | some q => .num q
    | none =>
      match tryDate w with
      | some (y, mo, d) => .date y mo d
      | none => .str (pyStrip (pyStr w))

/-- The numeric rule of `values_equal`: both sides parse under
`float(...)` and differ by less than the absolute tolerance `1e-5`. -/
def numRuleEq (a b : Value) : Bool :=
  match tryFloat a, tryFloat b with
  | some x, some y => ratWithinTol x y
  | _, _ => false

/-- The date rule of `values_equal`: both sides parse under
`parser.parse(str(...))` and have the same calendar date. -/
def dateRuleEq (a b : Value) : Bool :=
  match tryDate a, tryDate b with
  | some p, some q => p == q
  | _, _ => false

/-- `values_equal` from `src/logic/comparator.py`: numeric comparison with
tolerance is attempted first, then date comparison ignoring the time
component, and finally `str(source_val) == str(dest_val)`. -/
def values_equal (a b : Value) : Bool :=
  if numRuleEq a b then true
  else if dateRuleEq a b then true
  else pyStr a == pyStr b

/-- Round the fraction `n / d` (`d` positive) to the nearest integer,
ties to even (the rounding used by Python `format(x, '.5f')`). -/
def roundHalfEvenFrac (n : Int) (d : Nat) : Int :=
  let f := Int.fdiv n d
  let r2 := 2 * (n - f * d)
  if r2 < (d : Int) then f
  else if (d : Int) < r2 then f + 1
  else if f % 2 = 0 then f else f + 1

/-- Python `f"{val:.5f}"`: fixed five decimal places, round half to
even on the magnitude, sign taken from the value. -/
def formatFixed5 (q : PyRat) : String :=
  let m := (roundHalfEvenFrac ((q.n.natAbs : Int) * 100000) q.d).toNat
  let sign := if q.n < 0 then "-" else ""
  sign ++ toString (m / 100000) ++ "." ++ padZeros 5 (toString (m % 100000))

/-- `normalize_value` from `src/logic/comparator.py`: sanitize, then `None`
becomes `"NULL"`, floats are formatted with five decimal places, and
everything else is `str(val).strip()`. -/
def normalize_value (v : Value) : String :=
  match sanitize v with
  | .null => "NULL"
  | .num q => formatFixed5 q
  | w => pyStrip (pyStr w)

/-! ### XXH64 (the hash behind `xxhash.xxh64` in `compute_row_hash`) -/

/-- 2^64, the modulus of all XXH64 arithmetic. -/
def U64 : Nat := 18446744073709551616

def add64 (a b : Nat) : Nat := (a + b) % U64

def mul64 (a b : Nat) : Nat := (a * b) % U64

def xor64 (a b : Nat) : Nat := Nat.xor a b

/-- Rotate a 64-bit value left by `r` bits (`0 < r < 64`). -/
def rotl64 (x r : Nat) : Nat := (x * 2 ^ r + x / 2 ^ (64 - r)) % U64

def xxPrime1 : Nat := 11400714785074694791
def xxPrime2 : Nat := 14029467366897019727
def xxPrime3 : Nat := 1609587929392839161
def xxPrime4 : Nat := 9650029242287828579
def xxPrime5 : Nat := 2870177450012600261

/-- Little-endian value of a byte list. -/
def leVal (bs : List Nat) : Nat := bs.foldr (fun b acc => acc * 256 + b) 0

def xxRound (acc lane : Nat) : Nat :=
  mul64 (rotl64 (add64 acc (mul64 lane xxPrime2)) 31) xxPrime1

def xxMergeRound (acc v : Nat) : Nat :=
  add64 (mul64 (xor64 acc (xxRound 0 v)) xxPrime1) xxPrime4

/-- Consume 32-byte stripes, updating the four accumulators.  `fuel` is an
upper bound on the number of stripes (the input length suffices). -/
def xxStripes (fuel : Nat) (v1 v2 v3 v4 : Nat) (bs : List Nat) :
    Nat × Nat × Nat × Nat × List Nat :=
  match fuel with
  | 0 => (v1, v2, v3, v4, bs)
  | fuel + 1 =>
    if bs.length ≥ 32 then
      xxStripes fuel
        (xxRound v1 (leVal (bs.take 8)))
        (xxRound v2 (leVal ((bs.drop 8).take 8)))
        (xxRound v3 (leVal ((bs.drop 16).take 8)))
        (xxRound v4 (leVal ((bs.drop 24).take 8)))
        (bs.drop 32)
    else (v1, v2, v3, v4, bs)

/-- Consume 8-byte lanes of the tail. -/
def xxTail8 (fuel h : Nat) (bs : List Nat) : Nat × List Nat :=
  match fuel with
  | 0 => (h, bs)
  | fuel + 1 =>
    if bs.length ≥ 8 then
      xxTail8 fuel
        (add64 (mul64 (rotl64 (xor64 h (xxRound 0 (leVal (bs.take 8)))) 27) xxPrime1) xxPrime4)
        (bs.drop 8)
    else (h, bs)

def xxAvalanche (h : Nat) : Nat :=
  let h := xor64 h (h / 2 ^ 33)
  let h := mul64 h xxPrime2
  let h := xor64 h (h / 2 ^ 29)
  let h := mul64 h xxPrime3
  xor64 h (h / 2 ^ 32)

/-- The XXH64 digest of a byte sequence with the given seed. -/
def xxh64 (seed : Nat) (bs : List Nat) : Nat :=
  let len := bs.length
  let (h, rest) :=
    if len ≥ 32 then
      let v1 := add64 (add64 seed xxPrime1) xxPrime2
      let v2 := add64 seed xxPrime2
      let v3 := seed % U64
      let v4 := (seed + U64 - xxPrime1 % U64) % U64
      let (v1, v2, v3, v4, rest) := xxStripes len v1 v2 v3 v4 bs
      let h := add64 (add64 (add64 (rotl64 v1 1) (rotl64 v2 7)) (rotl64 v3 12)) (rotl64 v4 18)
      let h := xxMergeRound h v1
      let h := xxMergeRound h v2
      let h := xxMergeRound h v3
      let h := xxMergeRound h v4
      (h, rest)
    else (add64 seed xxPrime5, bs)
  let h := add64 h len
  let (h, rest) := xxTail8 len h rest
  let (h, rest) :=
    if rest.length ≥ 4 then
      (add64 (mul64 (rotl64 (xor64 h (mul64 (leVal (rest.take 4)) xxPrime1)) 23) xxPrime2) xxPrime3,
        rest.drop 4)
    else (h, rest)
  let h := rest.foldl (fun h b => mul64 (rotl64 (xor64 h (mul64 b xxPrime5)) 11) xxPrime1) h
  xxAvalanche h

/-- UTF-8 encoding of one character. -/
def utf8Encode (c : Char) : List Nat :=
  let n := c.toNat
  if n < 128 then [n]
  else if n < 2048 then [192 + n / 64, 128 + n % 64]
  else if n < 65536 then [224 + n / 4096, 128 + n / 64 % 64, 128 + n % 64]
  else [240 + n / 262144, 128 + n / 4096 % 64, 128 + n / 64 % 64, 128 + n % 64]

/-- UTF-8 bytes of a string (`s.encode("utf-8")`). -/
def strBytes (s : String) : List Nat := (s.data.map utf8Encode).flatten

def hexChar (n : Nat) : Char := if n < 10 then Char.ofNat (48 + n) else Char.ofNat (87 + n)

/-- The zero-padded 16-character lowercase hex rendering of a 64-bit
value, as returned by `hexdigest()`. -/
def toHex16 (n : Nat) : String :=
  String.mk ((List.range 16).map (fun i => hexChar (n / 16 ^ (15 - i) % 16)))

/-- A row record: an association list from logical column name to value
(a Python dict; keys are distinct). -/
abbrev Row : Type := List (String × Value)

/-- `row.get(k)`: `None` when the key is absent. -/
def rowGet (row : Row) (k : String) : Value := ((List.lookup k row).getD Value.null)

/-- Stable insertion into a key list sorted by code-point order
(`sorted(row.keys())`). -/
def insertKey (a : String) : List String → List String
  | [] => [a]
  | b :: bs => if compare a b = Ordering.gt then b :: insertKey a bs else a :: b :: bs

def sortKeys (ks : List String) : List String := ks.foldr insertKey []

/-- The byte stream hashed by `compute_row_hash`: for each key in sorted
order, the UTF-8 bytes of the normalized value, concatenated by the
successive `h.update(...)` calls. -/
def rowStream (row : Row) : List Nat :=
  ((sortKeys (row.map Prod.fst)).map (fun k => strBytes (normalize_value (rowGet row k)))).flatten

/-- `compute_row_hash` from `src/logic/comparator.py`. -/
def compute_row_hash (row : Row) : String := toHex16 (xxh64 0 (rowStream row))

/-! ### Row comparison (`src/logic/comparator.py`) -/

/-- One mismatch entry as built by the comparison functions.  The hash
fields are present exactly when `use_row_hash` is set. -/
structure Mismatch where
  column : String
  source_value : Value
  dest_value : Value
  source_hash : Option String
  dest_hash : Option String
deriving DecidableEq, Repr

/-- `compare_rows` from `src/logic/comparator.py`.  The function first
evaluates `next(iter(column_map.keys()))` for its debug log, which raises
`StopIteration` on an empty column map — modelled by `none`.  With
`use_row_hash` it short-circuits on equal hashes; otherwise each logical
column is sanitized on both sides and a mismatch is recorded whenever
`values_equal` fails.  There is no `include_nulls` handling here. -/
def compare_rows (source_row dest_row : Row) (column_map : List String)
    (use_row_hash : Bool) : Option (List Mismatch) :=
  match column_map with
  | [] => none
  | _ :: _ =>
    let src_hash := if use_row_hash then some (compute_row_hash source_row) else none
    let dest_hash := if use_row_hash then some (compute_row_hash dest_row) else none
    if use_row_hash ∧ compute_row_hash source_row = compute_row_hash dest_row then
      some []
    else
      some (column_map.filterMap (fun col =>
        let src_val := sanitize (rowGet source_row col)
        let dest_val := sanitize (rowGet dest_row col)
        if values_equal src_val dest_val then none
        else some ⟨col, src_val, dest_val, src_hash, dest_hash⟩))

/-- The configuration keys read by `compare_row_pair_by_pk` and the serial
batch path. -/
structure CmpConfig where
  primary_key : String
  include_nulls : Bool
  use_row_hash : Bool
deriving DecidableEq, Repr

/-- The per-row result of `compare_row_pair_by_pk` (the `partition`
passthrough field is omitted; it does not affect any claim). -/
structure RowResult where
  primary_key : Value
  mismatches : List Mismatch
deriving DecidableEq, Repr

/-- The per-column loop of `compare_row_pair_by_pk`: sanitize both sides,
skip equal values, skip a column when `include_nulls` is off and either
sanitized side is null, and otherwise record the mismatch (with the hash
fields the caller computed). -/
def byPkMismatches (src_row dest_row : Row) (columns : List String) (cfg : CmpConfig)
    (src_hash dest_hash : Option String) : List Mismatch :=
  columns.filterMap (fun col =>
    let src_val := sanitize (rowGet src_row col)
    let dest_val := sanitize (rowGet dest_row col)
    if values_equal src_val dest_val then none
    else if ¬cfg.include_nulls ∧ (src_val = .null ∨ dest_val = .null) then none
    else some ⟨col, src_val, dest_val, src_hash, dest_hash⟩)

/-- `compare_row_pair_by_pk` from `src/logic/comparator.py`: optional
row-hash fast path, then the per-column loop `byPkMismatches`;
returns `none` when no mismatch remains. -/
def compare_row_pair_by_pk (src_row dest_row : Row) (columns : List String)
    (cfg : CmpConfig) : Option RowResult :=
  let pk := rowGet src_row cfg.primary_key
  let src_hash := if cfg.use_row_hash then some (compute_row_hash src_row) else none
  let dest_hash := if cfg.use_row_hash then some (compute_row_hash dest_row) else none
  if cfg.use_row_hash ∧ compute_row_hash src_row = compute_row_hash dest_row then none
  else
    let mismatches := byPkMismatches src_row dest_row columns cfg src_hash dest_hash
    if mismatches = [] then none else some ⟨pk, mismatches⟩

/-- The per-column kernel of `compare_row_pairs_serial`
(`compare_column` in `src/logic/comparator.py`): the data frames hold
sanitized values; indices where the two columns are elementwise equal are
skipped, then nulls are skipped unless `include_nulls`, and the remaining
indices yield mismatch records.  The pairs are the sanitized
`(source, destination)` values of one column in row order. -/
def serialColumnMismatches (include_nulls : Bool) (col : String)
    (pairs : List (Value × Value)) : List Mismatch :=
  pairs.filterMap (fun p =>
    if p.1 = p.2 then none
    else if ¬include_nulls ∧ (p.1 = .null ∨ p.2 = .null) then none
    else some ⟨col, p.1, p.2, none, none⟩)

/-! ### The merge walk (`row_pairs` in `src/scripts/reconcile_runner.py`) -/

/-- A row as seen by the walk: an association list of column name to
primary-key-comparable value (the walk touches only the primary-key
entry and the dict's truthiness). -/
abbrev WalkRow : Type := List (String × Int)

/-- Events emitted by the walk: a yielded comparison pair, a
`missing_in_dest` record, or an `extra_in_dest` record. -/
inductive Event where
  | matched : WalkRow → WalkRow → Event
  | missing : WalkRow → Event
  | extra : WalkRow → Event
deriving DecidableEq, Repr

/-- The loop body of the merge walk, structurally recursive on a fuel
bound: every iteration of the `while` loop consumes one row from one of
the streams, so `src.length + dest.length` iterations always suffice and
the out-of-fuel branch is unreachable from `row_pairs`.  While either
stream is live the loop asserts the primary key is present (an absent key
is the `AssertionError`, modelled as `Except.error`), then yields a
comparison pair when both keys are equal (advancing both streams), a
`missing_in_dest` record when the destination is exhausted or the source
key is smaller (advancing the source), and an `extra_in_dest` record
otherwise (advancing the destination). -/
def row_pairs_go (pk : String) : Nat → List WalkRow → List WalkRow → Except String (List Event)
  | _, [], [] => .ok []
  | 0, _, _ => .error "out of fuel"
  | fuel + 1, s :: ss, [] =>
    match List.lookup pk s with
    | none => .error ("Primary key " ++ pk ++ " missing in source row")
    | some _ =>
      match row_pairs_go pk fuel ss [] with
      | .ok es => .ok (.missing s :: es)
      | .error e => .error e
  | fuel + 1, [], d :: ds =>
    match List.lookup pk d with
    | none => .error ("Primary key " ++ pk ++ " missing in destination row")
    | some _ =>
      match row_pairs_go pk fuel [] ds with
      | .ok es => .ok (.extra d :: es)
      | .error e => .error e
  | fuel + 1, s :: ss, d :: ds =>
    match List.lookup pk s, List.lookup pk d with
    | none, _ => .error ("Primary key " ++ pk ++ " missing in source row")
    | _, none => .error ("Primary key " ++ pk ++ " missing in destination row")
    | some sk, some dk =>
      if sk = dk then
        match row_pairs_go pk fuel ss ds with
        | .ok es => .ok (.matched s d :: es)
        | .error e => .error e
      else if sk < dk then
        match row_pairs_go pk fuel ss (d :: ds) with
        | .ok es => .ok (.missing s :: es)
        | .error e => .error e
      else
        match row_pairs_go pk fuel (s :: ss) ds with
        | .ok es => .ok (.extra d :: es)
        | .error e => .error e

/-- The merge walk of `row_pairs` in `src/scripts/reconcile_runner.py`,
over the fully fetched source and destination row lists. -/
def row_pairs (pk : String) (src dest : List WalkRow) : Except String (List Event) :=
  row_pairs_go pk (src.length + dest.length) src dest

/-- Key of a yielded comparison-pair event. -/
def eventMatchKey (pk : String) : Event → Option Int
  | .matched s _ => List.lookup pk s
  | _ => none

/-- Key of a `missing_in_dest` event. -/
def eventMissingKey (pk : String) : Event → Option Int
  | .missing s => List.lookup pk s
  | _ => none

/-- Key of an `extra_in_dest` event. -/
def eventExtraKey (pk : String) : Event → Option Int
  | .extra d => List.lookup pk d
  | _ => none

/-- The primary-key sequence of a stream. -/
def rowKeys (pk : String) (rows : List WalkRow) : List Int :=
  rows.filterMap (fun r => List.lookup pk r)

/-! ### The discrepancy sink (`DiscrepancyWriter` in `src/logic/reporter.py`) -/

/-- A discrepancy record as buffered by the sink: a dict from column name
to a nullable string value (the sink stores values by string coercion). -/
abbrev SinkRec := List (String × Option String)

/-- The mutable state of a `DiscrepancyWriter`. -/
structure SinkState where
  columns : List String
  buffer : List SinkRec
  prepared : Bool
deriving DecidableEq, Repr

/-- The SQL statements the sink executes. -/
inductive DbOp where
  | createTable : List String → DbOp
  | dropTemp : DbOp
  | createTemp : List String → DbOp
  | insertTemp : List (List (Option String)) → DbOp
  | mergeStmt : List String → List String → DbOp
  | commit : DbOp
deriving DecidableEq, Repr

/-- Failure injection points for `flush`: each names the database
statement of `flush` that raises. -/
inductive FlushStep where
  | createTempStep
  | bulkInsertStep
  | mergeStep
  | commitStep
deriving DecidableEq, Repr

/-- `_create_temp_table` / `_bulk_insert_temp` both append
`record_insert_datetime` to `self.columns` when missing. -/
def withTimestampCol (cols : List String) : List String :=
  if cols.contains "record_insert_datetime" then cols else cols ++ ["record_insert_datetime"]

/-- The in-place mutation of `_bulk_insert_temp` on each buffered record:
records missing `record_insert_datetime` get the current timestamp. -/
def stampRec (now : String) (rec : SinkRec) : SinkRec :=
  if (List.lookup "record_insert_datetime" rec).isSome then rec
  else rec ++ [("record_insert_datetime", some now)]

/-- `[rec[c] for c in self.columns]`: `none` models the `KeyError` when a
record lacks a declared column. -/
def recVals (cols : List String) (rec : SinkRec) : Option (List (Option String)) :=
  cols.mapM (fun c => List.lookup c rec)

/-- `key_cols = [c for c in ("primary_key", "column") if c in self.columns]`
in `_merge_temp_into_target`. -/
def mergeKeyCols (cols : List String) : List String :=
  ["primary_key", "column"].filter (fun c => cols.contains c)

/-- A staged or stored row, as the list of its values in column order
(exactly the shape `_bulk_insert_temp` inserts). -/
abbrev MergeRow := List (Option String)

/-- SQL equality of two nullable values: `NULL` compares equal to
nothing. -/
def sqlEqOpt (a b : Option String) : Bool :=
  match a, b with
  | some x, some y => x == y
  | _, _ => false

/-- The `ON` clause of the MERGE: target and source agree (under SQL
equality) on every key column. -/
def rowMatches (cols keyCols : List String) (t s : MergeRow) : Bool :=
  (cols.zip (t.zip s)).all (fun p => !keyCols.contains p.1 || sqlEqOpt p.2.1 p.2.2)

/-- `WHEN MATCHED THEN UPDATE`: non-key columns take the source value,
key columns keep the target value. -/
def updateRow (cols keyCols : List String) (t s : MergeRow) : MergeRow :=
  (cols.zip (t.zip s)).map (fun p => if keyCols.contains p.1 then p.2.1 else p.2.2)

/-- Effect of the MERGE for one source row: update the first matching
target row, or insert the row when no target row matches. -/
def mergeOne (cols keyCols : List String) : List MergeRow → MergeRow → List MergeRow
  | [], s => [s]
  | t :: ts, s =>
    if rowMatches cols keyCols t s then updateRow cols keyCols t s :: ts
    else t :: mergeOne cols keyCols ts s

/-- `_merge_temp_into_target`: the MERGE upserts each staged row into the
target on the key columns `mergeKeyCols cols` (the set-based SQL MERGE
raises when several staged rows match one target row; this sequential
model agrees with it whenever that is not the case). -/
def mergeTempIntoTarget (cols : List String) (tgt temp : List MergeRow) : List MergeRow :=
  temp.foldl (mergeOne cols (mergeKeyCols cols)) tgt

/-- Result of `flush` (and of `write`): the new writer state, the
database statements executed, and whether an exception was raised.  On a
raising step the statement's own op is not recorded. -/
structure FlushResult where
  state : SinkState
  ops : List DbOp
  raised : Bool
deriving DecidableEq, Repr

/-- `flush` from `src/logic/reporter.py`.  An empty buffer returns at
once.  Otherwise `_create_temp_table` (which first appends the timestamp
column to `self.columns`), `_bulk_insert_temp` (which stamps every
buffered record in place, then builds the parameter rows, raising
`KeyError` when a record lacks a declared column), and
`_merge_temp_into_target` (which raises `ValueError` without key columns)
run inside a `try`; on any exception the error propagates and
`self.buffer.clear()` is not reached; the buffer is cleared only after
the commit succeeds. -/
def flush (st : SinkState) (now : String) (failAt : Option FlushStep) : FlushResult :=
  if st.buffer.isEmpty then ⟨st, [], false⟩
  else
    let cols := withTimestampCol st.columns
    let st1 : SinkState := ⟨cols, st.buffer, st.prepared⟩
    if failAt = some .createTempStep then ⟨st1, [], true⟩
    else
      let ops := [DbOp.dropTemp, DbOp.createTemp cols]
      let stamped := st1.buffer.map (stampRec now)
      let st2 : SinkState := ⟨cols, stamped, st.prepared⟩
      if failAt = some .bulkInsertStep then ⟨st2, ops, true⟩
      else
        match stamped.mapM (recVals cols) with
        | none => ⟨st2, ops, true⟩
        | some vals =>
          let ops := ops ++ [DbOp.insertTemp vals]
          let keyCols := mergeKeyCols cols
          if keyCols = [] then ⟨st2, ops, true⟩
          else if failAt = some .mergeStep then ⟨st2, ops, true⟩
          else
            let ops := ops ++ [DbOp.mergeStmt keyCols (cols.filter (fun c => !keyCols.contains c))]
            if failAt = some .commitStep then ⟨st2, ops, true⟩
            else ⟨⟨cols, [], st.prepared⟩, ops ++ [DbOp.commit], false⟩

/-- `_prepare_table`: on the first record, fix `self.columns` as the
record's keys and create the output table. -/
def prepare_table (st : SinkState) (rec : SinkRec) : SinkState × List DbOp :=
  if st.prepared then (st, [])
  else (⟨rec.map Prod.fst, st.buffer, true⟩, [DbOp.createTable (rec.map Prod.fst)])

/-- `write` from `src/logic/reporter.py`: prepare the table, append the
record to the buffer, and flush when the buffer reaches `batch_size`. -/
def writeRec (batch_size : Nat) (now : String) (st : SinkState) (rec : SinkRec) : FlushResult :=
  let (st1, ops) := prepare_table st rec
  let st2 : SinkState := ⟨st1.columns, st1.buffer ++ [rec], st1.prepared⟩
  if st2.buffer.length ≥ batch_size then
    let r := flush st2 now none
    ⟨r.state, ops ++ r.ops, r.raised⟩
  else ⟨st2, ops, false⟩

/-! ### The repair pass (`fix_mismatches` in `src/scripts/fix_mismatches.py`) -/

/-- A row of the output (discrepancy) table, restricted to the fields the
repair pass reads. -/
structure OutRow where
  opk : Option String
  otype : Option String
  ocol : Option String
  osource : Option String
  oyear : Option String
  omonth : Option String
  oweek : Option String
deriving DecidableEq, Repr

/-- A destination-table row: physical column name to nullable value. -/
abbrev DestRow := List (String × Option String)

/-- The resolved configuration of the repair pass: the physical
destination columns for the primary key, year and month (already looked
up through `dest_cols` as the code does), the logical week column name,
and the logical-to-physical destination column map. -/
structure FixCfg where
  pk_col : String
  year_col : String
  month_col : String
  week_key : String
  dest_cols : List (String × String)
deriving DecidableEq, Repr

/-- A partition descriptor; `none` stands for an absent (or falsy)
coordinate. -/
structure Partition where
  pyear : Option String
  pmonth : Option String
  pweek : Option String
deriving DecidableEq, Repr

/-- `dest_cols.get(col, col)`. -/
def destColumnOf (cfg : FixCfg) (c : String) : String :=
  (List.lookup c cfg.dest_cols).getD c

/-- Value of a physical column in a destination row (`NULL` when the
column is absent). -/
def destVal (d : DestRow) (c : String) : Option String :=
  (List.lookup c d).getD none

/-- The accumulated `WHERE` clauses: `[type] = 'mismatch'` plus the
partition filters that are present. -/
def whereMatch (p : Partition) (r : OutRow) : Bool :=
  r.otype == some "mismatch" &&
  (match p.pyear with | some y => r.oyear == some y | none => true) &&
  (match p.pmonth with | some m => r.omonth == some m | none => true) &&
  (match p.pweek with | some w => r.oweek == some w | none => true)

/-- The join predicate `dest.[pk] = src.primary_key AND dest.[year] =
src.[year] AND dest.[month] = src.[month] [AND dest.[week] = src.[week]]`. -/
def joinMatch (cfg : FixCfg) (p : Partition) (d : DestRow) (r : OutRow) : Bool :=
  sqlEqOpt (destVal d cfg.pk_col) r.opk &&
  sqlEqOpt (destVal d cfg.year_col) r.oyear &&
  sqlEqOpt (destVal d cfg.month_col) r.omonth &&
  (match p.pweek with
   | some _ => sqlEqOpt (destVal d (destColumnOf cfg cfg.week_key)) r.oweek
   | none => true)

/-- The per-column `WHERE`: the shared clauses, `src.[column] = ?`, and
under `skip_nulls` the guard `src.source_value IS NOT NULL AND
src.source_value <> ''`. -/
def whereColMatch (p : Partition) (skipNulls : Bool) (col : Option String) (r : OutRow) : Bool :=
  whereMatch p r &&
  sqlEqOpt r.ocol col &&
  (!skipNulls || (r.osource != none && r.osource != some ""))

/-- The statements the repair pass runs (`selectCols` is the
`SELECT DISTINCT [column]`, the others are per-column). -/
inductive FixOp where
  | selectCols : FixOp
  | printUpdate : FixOp
  | printDelete : FixOp
  | execUpdate : Option String → FixOp
  | execDelete : Option String → FixOp
  | commitOp : FixOp
deriving DecidableEq, Repr

/-- Effect of the set-based UPDATE for one column: every destination row
joined to a qualifying output row takes that row's `source_value` in the
physical column (the first qualifying output row, matching the arbitrary
pick of the set-based join when several qualify). -/
def applyUpdate (cfg : FixCfg) (p : Partition) (skipNulls : Bool) (col : Option String)
    (out : List OutRow) (dest : List DestRow) : List DestRow :=
  dest.map (fun d =>
    match out.find? (fun r => joinMatch cfg p d r && whereColMatch p skipNulls col r) with
    | some r =>
      d.map (fun kv =>
        if kv.1 = destColumnOf cfg ((col).getD "") then (kv.1, r.osource) else kv)
    | none => d)

/-- Effect of the join DELETE for one column: remove from the output
table every row that joins to some destination row and satisfies the
per-column `WHERE` (with its repeated `src.[column] = ?` conjunct). -/
def applyDelete (cfg : FixCfg) (p : Partition) (skipNulls : Bool) (col : Option String)
    (dest : List DestRow) (out : List OutRow) : List OutRow :=
  out.filter (fun r =>
    !(whereColMatch p skipNulls col r &&
      sqlEqOpt r.ocol col &&
      dest.any (fun d => joinMatch cfg p d r)))

/-- One iteration of the per-column loop of `fix_mismatches`.  In dry-run
mode the UPDATE and the subquery DELETE are printed and the UPDATE is not
executed, but the loop then falls through to the join DELETE, which is
executed and committed in both modes. -/
def fixColumn (cfg : FixCfg) (p : Partition) (dryRun skipNulls : Bool) (col : Option String)
    (dest : List DestRow) (out : List OutRow) :
    List DestRow × List OutRow × List FixOp × List FixOp :=
  if dryRun then
    let out2 := applyDelete cfg p skipNulls col dest out
    (dest, out2, [.execDelete col, .commitOp], [.printUpdate, .printDelete])
  else
    let dest2 := applyUpdate cfg p skipNulls col out dest
    let out2 := applyDelete cfg p skipNulls col dest2 out
    (dest2, out2, [.execUpdate col, .commitOp, .execDelete col, .commitOp], [])

/-- The body of `fix_mismatches` for one partition: select the distinct
`[column]` values of the qualifying output rows, then run the per-column
loop over them. -/
def fixPartition (cfg : FixCfg) (p : Partition) (dryRun skipNulls : Bool)
    (dest : List DestRow) (out : List OutRow) :
    List DestRow × List OutRow × List FixOp × List FixOp :=
  let cols := ((out.filter (whereMatch p)).map (fun r => r.ocol)).eraseDups
  cols.foldl
    (fun acc col =>
      let (d2, o2, ex, pr) := fixColumn cfg p dryRun skipNulls col acc.1 acc.2.1
      (d2, o2, acc.2.2.1 ++ ex, acc.2.2.2 ++ pr))
    (dest, out, [FixOp.selectCols], [])

/-! ## Helper lemmas -/

/-- `values_equal` is reflexive: the numeric rule fires when the value
parses as a number, the date rule when it parses as a date, and the
string fallback compares `str(v)` with itself otherwise. -/
theorem values_equal_refl (v : Value) : values_equal v v = true := by
  unfold values_equal numRuleEq dateRuleEq
  cases tryFloat v with
  | some x => simp
  | none =>
    cases tryDate v with
    | some p => simp
    | none => simp

/-! ## C7 — `values_equal` rule structure -/

/-- C7 (corrected): `values_equal` returns true iff some rule classifies
the two values as equal, the rules tried in order being the numeric
tolerance rule, the calendar-date rule, and then equality of the raw
`str()` forms — with no whitespace trimming in the fallback. -/
theorem C7_theorem (a b : Value) :
    values_equal a b = (numRuleEq a b || dateRuleEq a b || (pyStr a == pyStr b)) := by
  unfold values_equal
  cases numRuleEq a b <;> cases dateRuleEq a b <;> simp

/-- C7 counterexample: two non-numeric, non-date strings that differ only
in surrounding whitespace have equal trimmed forms, yet `values_equal`
returns false, because the string fallback compares the untrimmed
`str()` forms. -/
theorem C7_counterexample :
    values_equal (Value.str "hello world ") (Value.str "hello world") = false ∧
    pyStrip (pyStr (Value.str "hello world ")) = pyStrip (pyStr (Value.str "hello world")) := by
  constructor
  · decide
  · decide

/-! ## C9 — self-comparison -/

/-- C9 (corrected): on a nonempty column map, comparing a row against
itself yields the empty mismatch list; value comparison is reflexive for
every value of the dynamic domain, including null. -/
theorem C9_theorem (r : Row) (cols : List String) (h : cols ≠ []) :
    compare_rows r r cols false = some [] := by
  match cols with
  | [] => exact absurd rfl h
  | c :: cs =>
    simp [compare_rows, values_equal_refl]

/-- C9 witness: a concrete row compared against itself. -/
theorem C9_witness :
    compare_rows [("id", Value.intv 1)] [("id", Value.intv 1)] ["id"] false = some [] :=
  C9_theorem [("id", Value.intv 1)] ["id"] (by decide)

/-- C9 counterexample: on the empty column map, `compare_rows` evaluates
`next(iter(column_map.keys()))` and raises `StopIteration` instead of
returning the empty list. -/
theorem C9_counterexample :
    compare_rows [("id", Value.intv 1)] [("id", Value.intv 1)] [] false ≠ some [] := by
  decide

/-! ## C6 — `include_nulls` suppression -/

/-- C6 (corrected): with `include_nulls` off, `compare_row_pair_by_pk` and
the serial batch path never emit a mismatch whose sanitized source or
destination value is null; `compare_rows` has no such suppression (see the
counterexample). -/
theorem C6_theorem :
    (∀ (src_row dest_row : Row) (columns : List String) (cfg : CmpConfig) (res : RowResult),
      cfg.include_nulls = false →
      compare_row_pair_by_pk src_row dest_row columns cfg = some res →
      ∀ m ∈ res.mismatches, m.source_value ≠ Value.null ∧ m.dest_value ≠ Value.null) ∧
    (∀ (col : String) (pairs : List (Value × Value)) (m : Mismatch),
      m ∈ serialColumnMismatches false col pairs →
      m.source_value ≠ Value.null ∧ m.dest_value ≠ Value.null) := by
  constructor
  · intro src_row dest_row columns cfg res hnull hres m hm
    have key : ∀ (sh dh : Option String),
        m ∈ byPkMismatches src_row dest_row columns cfg sh dh →
        m.source_value ≠ Value.null ∧ m.dest_value ≠ Value.null := by
      intro sh dh hmem
      unfold byPkMismatches at hmem
      simp only [List.mem_filterMap] at hmem
      obtain ⟨col', _, hf⟩ := hmem
      split at hf
      · exact absurd hf (by simp)
      · split at hf
        · exact absurd hf (by simp)
        · next hcond =>
          rw [Option.some.injEq] at hf
          subst hf
          rw [hnull] at hcond
          constructor
          · intro hs
            exact hcond ⟨by simp, Or.inl hs⟩
          · intro hd
            exact hcond ⟨by simp, Or.inr hd⟩
    simp only [compare_row_pair_by_pk] at hres
    repeat' split at hres
    all_goals try exact Option.noConfusion hres
    all_goals
      rw [Option.some.injEq] at hres
      subst hres
      exact key _ _ hm
  · intro col pairs m hm
    unfold serialColumnMismatches at hm
    simp only [List.mem_filterMap] at hm
    obtain ⟨p, _, hf⟩ := hm
    split at hf
    · exact absurd hf (by simp)
    · split at hf
      · exact absurd hf (by simp)
      · next hcond =>
        rw [Option.some.injEq] at hf
        subst hf
        constructor
        · intro hs
          exact hcond ⟨by simp, Or.inl hs⟩
        · intro hd
          exact hcond ⟨by simp, Or.inr hd⟩

/-- C6 witness: the suppression theorem applied to a concrete comparison
whose surviving mismatch has non-null values on both sides. -/
theorem C6_witness :
    (Mismatch.mk "a" (Value.str "p") (Value.str "q") none none).source_value ≠ Value.null ∧
    (Mismatch.mk "a" (Value.str "p") (Value.str "q") none none).dest_value ≠ Value.null :=
  C6_theorem.1 [("id", Value.intv 1), ("a", Value.str "p")]
    [("id", Value.intv 1), ("a", Value.str "q")] ["id", "a"] ⟨"id", false, false⟩
    ⟨Value.intv 1, [⟨"a", Value.str "p", Value.str "q", none, none⟩]⟩ rfl (by decide)
    (Mismatch.mk "a" (Value.str "p") (Value.str "q") none none) (by decide)

/-- C6 counterexample: `compare_rows` (with default `use_row_hash`) emits
a diff for a column whose source value is null even though
`include_nulls` is off — the claim says every comparison path suppresses
it. -/
theorem C6_counterexample :
    compare_rows [("id", Value.intv 1), ("c", Value.null)]
      [("id", Value.intv 1), ("c", Value.str "x")] ["id", "c"] false =
      some [⟨"c", Value.null, Value.str "x", none, none⟩] := by
  decide

/-! ## C4 — the row hash and the value-equivalence classes -/

/-- Membership in an insertion step of the key sort. -/
theorem mem_insertKey (a x : String) (l : List String) :
    a ∈ insertKey x l ↔ a = x ∨ a ∈ l := by
  induction l with
  | nil => simp [insertKey]
  | cons b bs ih =>
    simp only [insertKey]
    split
    · simp only [List.mem_cons, ih]
      try tauto
    · simp only [List.mem_cons]
      try tauto

/-- `sortKeys` permutes its input, so membership is preserved. -/
theorem mem_sortKeys (a : String) (ks : List String) :
    a ∈ sortKeys ks ↔ a ∈ ks := by
  induction ks with
  | nil => simp [sortKeys]
  | cons k ks ih =>
    show a ∈ insertKey k (sortKeys ks) ↔ _
    rw [mem_insertKey, ih]
    simp

/-- Pointwise-equal functions map a list to equal images. -/
theorem map_congr_mem {α β : Type} (l : List α) (f g : α → β)
    (h : ∀ a ∈ l, f a = g a) : l.map f = l.map g := by
  induction l with
  | nil => rfl
  | cons x xs ih =>
    simp only [List.map_cons]
    rw [h x (by simp), ih (fun a ha => h a (by simp [ha]))]

/-- If `a` sorts strictly after `b`, then `b` does not sort strictly
after `a`. -/
theorem cmp_total (a b : String) (h : compare a b = Ordering.gt) :
    compare b a ≠ Ordering.gt := by
  have hs := @Batteries.OrientedCmp.symm String compare _ a b
  rw [h] at hs
  intro hb
  rw [← hs] at hb
  exact absurd hb (by decide)

/-- A weak comparison between distinct strings is strict. -/
theorem cmp_lt_of_le_of_ne (a b : String) (h : compare a b ≠ Ordering.gt) (hne : a ≠ b) :
    compare a b = Ordering.lt := by
  cases hc : compare a b
  · rfl
  · exact absurd (Batteries.BEqCmp.cmp_iff_eq.mp hc) hne
  · exact absurd hc h

/-- Inserting into a weakly sorted key list keeps it weakly sorted. -/
theorem pairwise_le_insertKey (a : String) (l : List String)
    (h : l.Pairwise (fun x y => compare x y ≠ Ordering.gt)) :
    (insertKey a l).Pairwise (fun x y => compare x y ≠ Ordering.gt) := by
  induction l with
  | nil => simp [insertKey]
  | cons b bs ih =>
    rcases List.pairwise_cons.mp h with ⟨hb, hbs⟩
    simp only [insertKey]
    split
    · next hgt =>
      refine List.pairwise_cons.mpr ⟨?_, ih hbs⟩
      intro x hx
      rcases (mem_insertKey x a bs).mp hx with h' | hx'
      · rw [h']
        exact cmp_total a b hgt
      · exact hb x hx'
    · next hng =>
      refine List.pairwise_cons.mpr ⟨?_, h⟩
      intro x hx
      rcases List.mem_cons.mp hx with rfl | hx'
      · exact hng
      · exact Batteries.TransCmp.le_trans hng (hb x hx')

/-- `sortKeys` output is weakly sorted by the insertion order. -/
theorem pairwise_le_sortKeys (ks : List String) :
    (sortKeys ks).Pairwise (fun x y => compare x y ≠ Ordering.gt) := by
  induction ks with
  | nil => simp [sortKeys]
  | cons k ks ih => exact pairwise_le_insertKey k (sortKeys ks) ih

/-- Inserting a fresh key preserves duplicate-freedom. -/
theorem nodup_insertKey (a : String) (l : List String) (ha : a ∉ l) (h : l.Nodup) :
    (insertKey a l).Nodup := by
  induction l with
  | nil => simp [insertKey]
  | cons b bs ih =>
    rcases List.nodup_cons.mp h with ⟨hbn, hbs⟩
    simp only [insertKey]
    split
    · refine List.nodup_cons.mpr ⟨?_, ih (fun h' => ha (by simp [h'])) hbs⟩
      intro hmem
      rcases (mem_insertKey b a bs).mp hmem with h' | h'
      · exact ha (by simp [h'.symm])
      · exact hbn h'
    · exact List.nodup_cons.mpr ⟨ha, h⟩

/-- `sortKeys` preserves duplicate-freedom. -/
theorem nodup_sortKeys (ks : List String) (h : ks.Nodup) : (sortKeys ks).Nodup := by
  induction ks with
  | nil => simp [sortKeys]
  | cons k ks ih =>
    rcases List.nodup_cons.mp h with ⟨hk, hks⟩
    exact nodup_insertKey k (sortKeys ks) (fun hm => hk ((mem_sortKeys k ks).mp hm)) (ih hks)

/-- On duplicate-free input, `sortKeys` output is strictly sorted. -/
theorem pairwise_lt_sortKeys (ks : List String) (h : ks.Nodup) :
    (sortKeys ks).Pairwise (fun x y => compare x y = Ordering.lt) := by
  have h1 := pairwise_le_sortKeys ks
  have h2 : (sortKeys ks).Pairwise (· ≠ ·) := nodup_sortKeys ks h
  exact (h1.and h2).imp (fun hp => cmp_lt_of_le_of_ne _ _ hp.1 hp.2)

/-- Two strictly sorted key lists with the same members are equal. -/
theorem eq_of_pairwise_lt_of_mem_iff :
    ∀ (l1 l2 : List String), l1.Pairwise (fun x y => compare x y = Ordering.lt) →
      l2.Pairwise (fun x y => compare x y = Ordering.lt) →
      (∀ x, x ∈ l1 ↔ x ∈ l2) → l1 = l2 := by
  intro l1
  induction l1 with
  | nil =>
    intro l2 _ _ hmem
    cases l2 with
    | nil => rfl
    | cons b bs => exact absurd ((hmem b).mpr (by simp)) (by simp)
  | cons a as ih =>
    intro l2 h1 h2 hmem
    cases l2 with
    | nil => exact absurd ((hmem a).mp (by simp)) (by simp)
    | cons b bs =>
      rcases List.pairwise_cons.mp h1 with ⟨ha, has⟩
      rcases List.pairwise_cons.mp h2 with ⟨hb, hbs⟩
      have hrefl : ∀ (x : String), compare x x = Ordering.eq := fun x =>
        Batteries.BEqCmp.cmp_iff_eq.mpr rfl
      have hab : a = b := by
        rcases List.mem_cons.mp ((hmem a).mp (by simp)) with h' | h'
        · exact h'
        · rcases List.mem_cons.mp ((hmem b).mpr (by simp)) with h'' | h''
          · exact h''.symm
          · have hcontr := Batteries.TransCmp.lt_trans (hb a h') (ha b h'')
            rw [hrefl b] at hcontr
            cases hcontr
      subst hab
      have htails : ∀ x, x ∈ as ↔ x ∈ bs := by
        intro x
        constructor
        · intro hx
          rcases List.mem_cons.mp ((hmem x).mp (by simp [hx])) with h' | h'
          · subst h'
            have := ha x hx
            rw [hrefl x] at this
            cases this
          · exact h'
        · intro hx
          rcases List.mem_cons.mp ((hmem x).mpr (by simp [hx])) with h' | h'
          · subst h'
            have := hb x hx
            rw [hrefl x] at this
            cases this
          · exact h'
      rw [ih bs has hbs htails]

/-- `sorted(keys)` is a function of the key *set*: duplicate-free key
lists with the same members sort to the same list. -/
theorem sortKeys_eq_of_mem_iff (ks1 ks2 : List String) (h1 : ks1.Nodup) (h2 : ks2.Nodup)
    (hmem : ∀ x, x ∈ ks1 ↔ x ∈ ks2) : sortKeys ks1 = sortKeys ks2 :=
  eq_of_pairwise_lt_of_mem_iff (sortKeys ks1) (sortKeys ks2)
    (pairwise_lt_sortKeys ks1 h1) (pairwise_lt_sortKeys ks2 h2)
    (fun x => by rw [mem_sortKeys, mem_sortKeys]; exact hmem x)

/-- C4 (corrected): the hash respects the *normalized forms* at the level
of column sets — two rows over the same set of (distinct) columns whose
normalized values agree on every column hash identically, whatever the
order of their keys, since `compute_row_hash` sorts the keys.
(`values_equal` alone does not imply equal hashes — see the
counterexample.) -/
theorem C4_theorem (r1 r2 : Row)
    (hn1 : (r1.map Prod.fst).Nodup) (hn2 : (r2.map Prod.fst).Nodup)
    (hk : ∀ k, k ∈ r1.map Prod.fst ↔ k ∈ r2.map Prod.fst)
    (hv : ∀ k ∈ r1.map Prod.fst,
      normalize_value (rowGet r1 k) = normalize_value (rowGet r2 k)) :
    compute_row_hash r1 = compute_row_hash r2 := by
  unfold compute_row_hash rowStream
  rw [sortKeys_eq_of_mem_iff (r1.map Prod.fst) (r2.map Prod.fst) hn1 hn2 hk]
  have hmap : (sortKeys (r2.map Prod.fst)).map
      (fun k => strBytes (normalize_value (rowGet r1 k))) =
      (sortKeys (r2.map Prod.fst)).map
      (fun k => strBytes (normalize_value (rowGet r2 k))) := by
    apply map_congr_mem
    intro k hkmem
    rw [hv k ((hk k).mpr ((mem_sortKeys k _).mp hkmem))]
  rw [hmap]

/-- C4 witness: two rows over the column set `{a, b}` listed in opposite
orders, with `"18.20"` against the float `18.2` in column `a` and null on
both sides of column `b`; the hashes coincide. -/
theorem C4_witness :
    compute_row_hash [("a", Value.str "18.20"), ("b", Value.null)] =
      compute_row_hash [("b", Value.null), ("a", Value.num (ratMk 91 5))] :=
  C4_theorem [("a", Value.str "18.20"), ("b", Value.null)]
    [("b", Value.null), ("a", Value.num (ratMk 91 5))]
    (by decide) (by decide)
    (by intro k; constructor <;> (intro h; simp only [List.map_cons, List.map_nil,
      List.mem_cons, List.not_mem_nil, or_false] at h ⊢; tauto))
    (by decide)

/-- C4 counterexample: `0.100004` and `0.100006` differ by `2e-6`, well
inside the `1e-5` tolerance, so `values_equal` holds on the only column —
but they format to `0.10000` and `0.10001` under the five-decimal
normalization, so the row hashes differ. -/
theorem C4_counterexample :
    values_equal (Value.num (ratMk 100004 1000000)) (Value.num (ratMk 100006 1000000)) = true ∧
    compute_row_hash [("v", Value.num (ratMk 100004 1000000))] ≠
      compute_row_hash [("v", Value.num (ratMk 100006 1000000))] := by
  constructor
  · decide
  · decide

/-! ## C1 — MERGE key columns and upsert idempotence -/

/-- SQL equality of nullable values is only satisfied by equal non-null
values. -/
theorem sqlEqOpt_eq : ∀ {a b : Option String}, sqlEqOpt a b = true → a = b := by
  intro a b h
  cases a with
  | none => cases b <;> simp [sqlEqOpt] at h
  | some x =>
    cases b with
    | none => simp [sqlEqOpt] at h
    | some y =>
      simp only [sqlEqOpt, beq_iff_eq] at h
      rw [h]

/-- A matched target row updated from the source becomes the source row:
key columns already agree (by the `ON` clause) and every non-key column
is overwritten. -/
theorem updateRow_matched (keyCols : List String) :
    ∀ (cols : List String) (t s : MergeRow),
      rowMatches cols keyCols t s = true → t.length = cols.length →
      s.length = cols.length → updateRow cols keyCols t s = s := by
  intro cols
  induction cols with
  | nil =>
    intro t s _ _ hs
    cases s with
    | nil => simp [updateRow]
    | cons _ _ => simp at hs
  | cons c cs ih =>
    intro t s hm ht hs
    cases t with
    | nil => simp at ht
    | cons tv ts =>
      cases s with
      | nil => simp at hs
      | cons sv ss =>
        simp only [rowMatches, List.zip_cons_cons, List.all_cons, Bool.and_eq_true] at hm
        simp only [updateRow, List.zip_cons_cons, List.map_cons, List.length_cons,
          Nat.add_right_cancel_iff] at *
        have hhead : (if keyCols.contains c = true then tv else sv) = sv := by
          cases hc : keyCols.contains c with
          | true =>
            have hv := hm.1
            rw [hc] at hv
            simp only [Bool.not_true, Bool.false_or] at hv
            simp [sqlEqOpt_eq hv]
          | false => simp
        rw [hhead, ih ts ss hm.2 ht hs]

/-- Upserting the same staged row twice is the same as upserting it once,
provided its key values are non-null (`rowMatches s s`) and the rows are
aligned with the column list. -/
theorem mergeOne_idem (cols keyCols : List String) (s : MergeRow)
    (hself : rowMatches cols keyCols s s = true) (hs : s.length = cols.length) :
    ∀ (tgt : List MergeRow), (∀ t ∈ tgt, t.length = cols.length) →
      mergeOne cols keyCols (mergeOne cols keyCols tgt s) s = mergeOne cols keyCols tgt s := by
  intro tgt
  induction tgt with
  | nil =>
    intro _
    simp [mergeOne, hself, updateRow_matched keyCols cols s s hself hs hs]
  | cons t ts ih =>
    intro hlen
    cases hmatch : rowMatches cols keyCols t s with
    | true =>
      have ht := hlen t (by simp)
      have hupd : updateRow cols keyCols t s = s :=
        updateRow_matched keyCols cols t s hmatch ht hs
      simp [mergeOne, hmatch, hupd, hself,
        updateRow_matched keyCols cols s s hself hs hs]
    | false =>
      simp only [mergeOne, hmatch, Bool.false_eq_true, if_false]
      rw [ih (fun u hu => hlen u (by simp [hu]))]

/-- C1 (corrected): the MERGE of `_merge_temp_into_target` matches on
exactly the key columns `{primary_key, column}` — the partition columns
`year`, `month`, `week` are not part of the `ON` clause — and re-merging
a staged row with non-null key values is idempotent under that two-part
key. -/
theorem C1_theorem :
    mergeKeyCols ["primary_key", "type", "column", "source_value", "dest_value",
      "year", "month", "week", "record_insert_datetime"] = ["primary_key", "column"] ∧
    ∀ (cols : List String) (tgt : List MergeRow) (s : MergeRow),
      rowMatches cols (mergeKeyCols cols) s s = true →
      s.length = cols.length →
      (∀ t ∈ tgt, t.length = cols.length) →
      mergeTempIntoTarget cols (mergeTempIntoTarget cols tgt [s]) [s] =
        mergeTempIntoTarget cols tgt [s] := by
  constructor
  · decide
  · intro cols tgt s hself hs hlen
    exact mergeOne_idem cols (mergeKeyCols cols) s hself hs tgt hlen

/-- C1 witness: re-merging a concrete discrepancy row into an empty
target is idempotent. -/
theorem C1_witness :
    mergeTempIntoTarget ["primary_key", "column", "year"]
      (mergeTempIntoTarget ["primary_key", "column", "year"] []
        [[some "1", some "c", some "2024"]])
      [[some "1", some "c", some "2024"]] =
      mergeTempIntoTarget ["primary_key", "column", "year"] []
        [[some "1", some "c", some "2024"]] :=
  C1_theorem.2 ["primary_key", "column", "year"] [] [some "1", some "c", some "2024"]
    (by decide) (by decide) (by simp)

/-- C1 counterexample: two records that agree on `(primary_key, column)`
but differ in `year` are not stored as distinct rows — the second MERGE
matches the first row (year is not a key column) and overwrites it,
leaving a single row. -/
theorem C1_counterexample :
    mergeTempIntoTarget ["primary_key", "column", "year"]
      (mergeTempIntoTarget ["primary_key", "column", "year"] []
        [[some "1", some "c", some "2024"]])
      [[some "1", some "c", some "2025"]] =
      [[some "1", some "c", some "2025"]] := by
  decide

/-! ## C10 — flush failure leaves no record behind -/

/-- C10 (corrected): an empty-buffer flush executes nothing and returns
the state unchanged; a raising flush keeps the buffer either exactly as
it was or with every record stamped in place with
`record_insert_datetime` (no record is dropped, so a later flush retries
them); the buffer is cleared exactly when the flush commits. -/
theorem C10_theorem (st : SinkState) (now : String) (failAt : Option FlushStep)
    (res : FlushResult) (hres : flush st now failAt = res) :
    (st.buffer = [] → res = ⟨st, [], false⟩) ∧
    (res.raised = true →
      res.state.buffer = st.buffer ∨ res.state.buffer = st.buffer.map (stampRec now)) ∧
    (res.raised = false → res.state.buffer = []) := by
  simp only [flush] at hres
  repeat' split at hres
  all_goals subst hres
  all_goals refine ⟨fun hemp => ?_, fun hr => ?_, fun hnr => ?_⟩ <;> simp_all

/-- C10 witness: a flush whose MERGE raises keeps all buffered records
(stamped with the attempt's timestamp). -/
theorem C10_witness :
    (flush ⟨["primary_key", "column"], [[("primary_key", some "1"), ("column", some "c")]], true⟩
        "2024-01-01 00:00:00" (some FlushStep.mergeStep)).state.buffer =
      [[("primary_key", some "1"), ("column", some "c")]] ∨
    (flush ⟨["primary_key", "column"], [[("primary_key", some "1"), ("column", some "c")]], true⟩
        "2024-01-01 00:00:00" (some FlushStep.mergeStep)).state.buffer =
      [[("primary_key", some "1"), ("column", some "c")]].map (stampRec "2024-01-01 00:00:00") := by
  have h := C10_theorem ⟨["primary_key", "column"],
    [[("primary_key", some "1"), ("column", some "c")]], true⟩
    "2024-01-01 00:00:00" (some FlushStep.mergeStep) _ rfl
  exact h.2.1 (by decide)

/-- C10 counterexample: after a MERGE failure the exception propagates,
but the in-memory buffer is *not* byte-for-byte unchanged — the records
were already stamped in place with `record_insert_datetime` by
`_bulk_insert_temp`. -/
theorem C10_counterexample :
    (flush ⟨["primary_key", "column"], [[("primary_key", some "1"), ("column", some "c")]], true⟩
        "2024-01-01 00:00:00" (some FlushStep.mergeStep)).raised = true ∧
    (flush ⟨["primary_key", "column"], [[("primary_key", some "1"), ("column", some "c")]], true⟩
        "2024-01-01 00:00:00" (some FlushStep.mergeStep)).state.buffer ≠
      [[("primary_key", some "1"), ("column", some "c")]] := by
  constructor
  · decide
  · decide

/-! ## C8 — schema evolution on new keys -/

/-- C8 (code bug): the repo test `test_discrepancy_writer_adds_columns`
writes `{"a": "1"}` then `{"a": "2", "b": "x"}` with `batch_size = 2` and
asserts the sink issues an `ALTER TABLE` adding `[b]`.  Evaluating the
writer on exactly that input: the columns stay fixed at the first
record's keys, the staged insert drops the value `"x"` of the new key
`"b"`, no ALTER statement of any form is executed, and the flush raises
(`ValueError`, since neither `primary_key` nor `column` is declared). -/
theorem C8_theorem :
    writeRec 2 "2024-01-01 00:00:00"
      (writeRec 2 "2024-01-01 00:00:00" ⟨[], [], false⟩ [("a", some "1")]).state
      [("a", some "2"), ("b", some "x")] =
    ⟨⟨["a", "record_insert_datetime"],
      [[("a", some "1"), ("record_insert_datetime", some "2024-01-01 00:00:00")],
       [("a", some "2"), ("b", some "x"), ("record_insert_datetime", some "2024-01-01 00:00:00")]],
      true⟩,
     [DbOp.dropTemp, DbOp.createTemp ["a", "record_insert_datetime"],
      DbOp.insertTemp [[some "1", some "2024-01-01 00:00:00"],
        [some "2", some "2024-01-01 00:00:00"]]],
     true⟩ := by
  decide

/-! ## C2 — dry run executes the repair DELETE -/

/-- C2 (code bug): running the repair pass in dry-run mode on one
partition with one recorded mismatch prints the UPDATE and DELETE as
claimed and leaves the destination untouched, but it also *executes and
commits* the join DELETE against the output table — the discrepancy row
is gone after the dry run (the `if dry_run:` branch skips only the
UPDATE; the DELETE that follows is outside the `else`). -/
theorem C2_theorem :
    fixPartition ⟨"id", "year", "month", "week", [("col", "col")]⟩
      ⟨some "2021", some "01", none⟩ true true
      [[("id", some "2"), ("year", some "2021"), ("month", some "01"), ("col", some "c")]]
      [⟨some "2", some "mismatch", some "col", some "b", some "2021", some "01", none⟩] =
    ([[("id", some "2"), ("year", some "2021"), ("month", some "01"), ("col", some "c")]],
     [],
     [FixOp.selectCols, FixOp.execDelete (some "col"), FixOp.commitOp],
     [FixOp.printUpdate, FixOp.printDelete]) := by
  decide

/-! ## C3 / C5 — the merge walk -/

/-- `rowKeys` unfolds over a head row whose key is present. -/
theorem rowKeys_cons (pk : String) (r : WalkRow) (rs : List WalkRow) (k : Int)
    (h : List.lookup pk r = some k) : rowKeys pk (r :: rs) = k :: rowKeys pk rs := by
  simp [rowKeys, h]

/-- Filtering with pointwise-equal predicates gives equal results. -/
theorem filter_congr_mem {α : Type} (l : List α) (p q : α → Bool)
    (h : ∀ a ∈ l, p a = q a) : l.filter p = l.filter q := by
  induction l with
  | nil => rfl
  | cons a as ih =>
    simp only [List.filter_cons]
    rw [h a (by simp)]
    cases hqa : q a <;>
      simp [hqa, ih (fun x hx => h x (by simp [hx]))]

/-- The walk never fails on streams whose rows all carry the primary
key, whatever their order: there is no ordering check in the loop. -/
theorem row_pairs_go_ok (pk : String) :
    ∀ (fuel : Nat) (src dest : List WalkRow),
      src.length + dest.length ≤ fuel →
      (∀ r ∈ src, (List.lookup pk r).isSome = true) →
      (∀ r ∈ dest, (List.lookup pk r).isSome = true) →
      ∃ E, row_pairs_go pk fuel src dest = .ok E := by
  intro fuel
  induction fuel with
  | zero =>
    intro src dest hlen hs hd
    match src, dest with
    | [], [] => exact ⟨[], rfl⟩
    | s :: ss, _ => simp at hlen
    | [], d :: ds => simp at hlen
  | succ fuel ih =>
    intro src dest hlen hs hd
    match src, dest with
    | [], [] => exact ⟨[], rfl⟩
    | s :: ss, [] =>
      obtain ⟨sk, hsk⟩ := Option.isSome_iff_exists.mp (hs s (by simp))
      obtain ⟨E, hE⟩ := ih ss [] (by simp at hlen ⊢; omega)
        (fun r hr => hs r (by simp [hr])) hd
      exact ⟨.missing s :: E, by simp [row_pairs_go, hsk, hE]⟩
    | [], d :: ds =>
      obtain ⟨dk, hdk⟩ := Option.isSome_iff_exists.mp (hd d (by simp))
      obtain ⟨E, hE⟩ := ih [] ds (by simp at hlen ⊢; omega) hs
        (fun r hr => hd r (by simp [hr]))
      exact ⟨.extra d :: E, by simp [row_pairs_go, hdk, hE]⟩
    | s :: ss, d :: ds =>
      obtain ⟨sk, hsk⟩ := Option.isSome_iff_exists.mp (hs s (by simp))
      obtain ⟨dk, hdk⟩ := Option.isSome_iff_exists.mp (hd d (by simp))
      by_cases heq : sk = dk
      · obtain ⟨E, hE⟩ := ih ss ds (by simp at hlen ⊢; omega)
          (fun r hr => hs r (by simp [hr])) (fun r hr => hd r (by simp [hr]))
        exact ⟨.matched s d :: E, by simp [row_pairs_go, hsk, hdk, heq, hE]⟩
      · by_cases hlt : sk < dk
        · obtain ⟨E, hE⟩ := ih ss (d :: ds) (by simp at hlen ⊢; omega)
            (fun r hr => hs r (by simp [hr])) hd
          exact ⟨.missing s :: E, by simp [row_pairs_go, hsk, hdk, heq, hlt, hE]⟩
        · obtain ⟨E, hE⟩ := ih (s :: ss) ds (by simp at hlen ⊢; omega) hs
            (fun r hr => hd r (by simp [hr]))
          exact ⟨.extra d :: E, by simp [row_pairs_go, hsk, hdk, heq, hlt, hE]⟩

/-- Boolean membership in a key list. -/
def keyMem (k : Int) : List Int → Bool
  | [] => false
  | a :: as => k == a || keyMem k as

/-- `keyMem` decides list membership. -/
theorem keyMem_iff (x : Int) (ks : List Int) : keyMem x ks = true ↔ x ∈ ks := by
  induction ks with
  | nil => simp [keyMem]
  | cons a as ih => simp [keyMem, ih]

theorem keyMem_cons_self (a : Int) (as : List Int) : keyMem a (a :: as) = true := by
  simp [keyMem]

theorem keyMem_cons_ne (x a : Int) (as : List Int) (h : x ≠ a) :
    keyMem x (a :: as) = keyMem x as := by
  simp [keyMem, h]

theorem keyMem_eq_false (x : Int) (ks : List Int) (h : ∀ a ∈ ks, x ≠ a) :
    keyMem x ks = false := by
  induction ks with
  | nil => simp [keyMem]
  | cons a as ih =>
    simp only [keyMem, Bool.or_eq_false_iff]
    exact ⟨by simp [h a (by simp)], ih (fun b hb => h b (by simp [hb]))⟩

/-- The walk classifies every key of two strictly-ordered streams exactly
once: shared keys as comparison pairs, source-only keys as
`missing_in_dest`, destination-only keys as `extra_in_dest`; and an
empty source yields one `extra_in_dest` per destination row. -/
theorem row_pairs_go_spec (pk : String) :
    ∀ (fuel : Nat) (src dest : List WalkRow),
      src.length + dest.length ≤ fuel →
      (∀ r ∈ src, (List.lookup pk r).isSome = true) →
      (∀ r ∈ dest, (List.lookup pk r).isSome = true) →
      (rowKeys pk src).Pairwise (· < ·) →
      (rowKeys pk dest).Pairwise (· < ·) →
      ∃ E, row_pairs_go pk fuel src dest = .ok E ∧
        E.filterMap (eventMatchKey pk) =
          (rowKeys pk src).filter (fun k => keyMem k (rowKeys pk dest)) ∧
        E.filterMap (eventMissingKey pk) =
          (rowKeys pk src).filter (fun k => !keyMem k (rowKeys pk dest)) ∧
        E.filterMap (eventExtraKey pk) =
          (rowKeys pk dest).filter (fun k => !keyMem k (rowKeys pk src)) ∧
        (src = [] → E = dest.map Event.extra) := by
  intro fuel
  induction fuel with
  | zero =>
    intro src dest hlen hs hd _ _
    match src, dest with
    | [], [] => exact ⟨[], rfl, by simp [rowKeys], by simp [rowKeys], by simp [rowKeys], by simp⟩
    | s :: ss, _ => simp at hlen
    | [], d :: ds => simp at hlen
  | succ fuel ih =>
    intro src dest hlen hs hd hsort hdsort
    match src, dest with
    | [], [] => exact ⟨[], rfl, by simp [rowKeys], by simp [rowKeys], by simp [rowKeys], by simp⟩
    | s :: ss, [] =>
      obtain ⟨sk, hsk⟩ := Option.isSome_iff_exists.mp (hs s (by simp))
      have hkeys_s := rowKeys_cons pk s ss sk hsk
      rw [hkeys_s] at hsort
      obtain ⟨E, hE, hm, hmi, hx, _⟩ :=
        ih ss [] (by simp at hlen ⊢; omega) (fun r hr => hs r (by simp [hr])) hd
          (List.pairwise_cons.mp hsort).2 hdsort
      refine ⟨.missing s :: E, ?_, ?_, ?_, ?_, by simp⟩
      · simp [row_pairs_go, hsk, hE]
      · rw [hkeys_s]
        simp only [List.filterMap_cons, eventMatchKey]
        rw [hm]
        simp [rowKeys, keyMem]
      · rw [hkeys_s]
        simp only [List.filterMap_cons, eventMissingKey, hsk]
        rw [hmi]
        simp [rowKeys, keyMem]
      · simp only [List.filterMap_cons, eventExtraKey]
        rw [hx]
        simp [rowKeys]
    | [], d :: ds =>
      obtain ⟨dk, hdk⟩ := Option.isSome_iff_exists.mp (hd d (by simp))
      have hkeys_d := rowKeys_cons pk d ds dk hdk
      rw [hkeys_d] at hdsort
      obtain ⟨E, hE, hm, hmi, hx, hempty⟩ :=
        ih [] ds (by simp at hlen ⊢; omega) hs (fun r hr => hd r (by simp [hr]))
          hsort (List.pairwise_cons.mp hdsort).2
      refine ⟨.extra d :: E, ?_, ?_, ?_, ?_, ?_⟩
      · simp [row_pairs_go, hdk, hE]
      · simp only [List.filterMap_cons, eventMatchKey]
        rw [hm]
        simp [rowKeys]
      · simp only [List.filterMap_cons, eventMissingKey]
        rw [hmi]
        simp [rowKeys]
      · rw [hkeys_d]
        simp only [List.filterMap_cons, eventExtraKey, hdk]
        rw [hx]
        simp [rowKeys, keyMem]
      · intro _
        rw [hempty rfl]
        simp
    | s :: ss, d :: ds =>
      obtain ⟨sk, hsk⟩ := Option.isSome_iff_exists.mp (hs s (by simp))
      obtain ⟨dk, hdk⟩ := Option.isSome_iff_exists.mp (hd d (by simp))
      have hkeys_s := rowKeys_cons pk s ss sk hsk
      have hkeys_d := rowKeys_cons pk d ds dk hdk
      rw [hkeys_s] at hsort
      rw [hkeys_d] at hdsort
      have hss_gt := (List.pairwise_cons.mp hsort).1
      have hds_gt := (List.pairwise_cons.mp hdsort).1
      by_cases heq : sk = dk
      · subst heq
        obtain ⟨E, hE, hm, hmi, hx, _⟩ :=
          ih ss ds (by simp at hlen ⊢; omega) (fun r hr => hs r (by simp [hr]))
            (fun r hr => hd r (by simp [hr]))
            (List.pairwise_cons.mp hsort).2 (List.pairwise_cons.mp hdsort).2
        refine ⟨.matched s d :: E, ?_, ?_, ?_, ?_, by simp⟩
        · simp [row_pairs_go, hsk, hdk, hE]
        · rw [hkeys_s, hkeys_d]
          have hcg : (rowKeys pk ss).filter (fun k => keyMem k (sk :: rowKeys pk ds)) =
              (rowKeys pk ss).filter (fun k => keyMem k (rowKeys pk ds)) :=
            filter_congr_mem _ _ _ (fun x hx' =>
              keyMem_cons_ne x sk _ (by have := hss_gt x hx'; omega))
          simp [List.filterMap_cons, eventMatchKey, hsk, List.filter_cons,
            keyMem_cons_self, hcg, hm]
        · rw [hkeys_s, hkeys_d]
          have hcg : (rowKeys pk ss).filter (fun k => !keyMem k (sk :: rowKeys pk ds)) =
              (rowKeys pk ss).filter (fun k => !keyMem k (rowKeys pk ds)) :=
            filter_congr_mem _ _ _ (fun x hx' => by
              rw [keyMem_cons_ne x sk _ (by have := hss_gt x hx'; omega)])
          simp [List.filterMap_cons, eventMissingKey, List.filter_cons,
            keyMem_cons_self, hcg, hmi]
        · rw [hkeys_s, hkeys_d]
          have hcg : (rowKeys pk ds).filter (fun k => !keyMem k (sk :: rowKeys pk ss)) =
              (rowKeys pk ds).filter (fun k => !keyMem k (rowKeys pk ss)) :=
            filter_congr_mem _ _ _ (fun x hx' => by
              rw [keyMem_cons_ne x sk _ (by have := hds_gt x hx'; omega)])
          simp [List.filterMap_cons, eventExtraKey, List.filter_cons,
            keyMem_cons_self, hcg, hx]
      · by_cases hlt : sk < dk
        · obtain ⟨E, hE, hm, hmi, hx, _⟩ :=
            ih ss (d :: ds) (by simp at hlen ⊢; omega)
              (fun r hr => hs r (by simp [hr])) hd
              (List.pairwise_cons.mp hsort).2 (by rw [hkeys_d]; exact hdsort)
          rw [hkeys_d] at hm hmi hx
          have hskmem : keyMem sk (dk :: rowKeys pk ds) = false :=
            keyMem_eq_false sk _ (by
              intro a ha
              rcases List.mem_cons.mp ha with h' | h'
              · omega
              · have := hds_gt a h'
                omega)
          refine ⟨.missing s :: E, ?_, ?_, ?_, ?_, by simp⟩
          · simp [row_pairs_go, hsk, hdk, heq, hlt, hE]
          · rw [hkeys_s, hkeys_d]
            simp [List.filterMap_cons, eventMatchKey, List.filter_cons, hskmem, hm]
          · rw [hkeys_s, hkeys_d]
            simp [List.filterMap_cons, eventMissingKey, hsk, List.filter_cons,
              hskmem, hmi]
          · have hcg : (dk :: rowKeys pk ds).filter (fun k => !keyMem k (sk :: rowKeys pk ss)) =
                (dk :: rowKeys pk ds).filter (fun k => !keyMem k (rowKeys pk ss)) :=
              filter_congr_mem _ _ _ (fun x hx' => by
                have hgex : dk ≤ x := by
                  rcases List.mem_cons.mp hx' with h' | h'
                  · omega
                  · have := hds_gt x h'
                    omega
                rw [keyMem_cons_ne x sk _ (by omega)])
            rw [hkeys_s, hkeys_d]
            simp [List.filterMap_cons, eventExtraKey, hcg, hx]
        · have hgt : dk < sk := by omega
          obtain ⟨E, hE, hm, hmi, hx, _⟩ :=
            ih (s :: ss) ds (by simp at hlen ⊢; omega) hs
              (fun r hr => hd r (by simp [hr]))
              (by rw [hkeys_s]; exact hsort) (List.pairwise_cons.mp hdsort).2
          rw [hkeys_s] at hm hmi hx
          have hdkmem : keyMem dk (sk :: rowKeys pk ss) = false :=
            keyMem_eq_false dk _ (by
              intro a ha
              rcases List.mem_cons.mp ha with h' | h'
              · omega
              · have := hss_gt a h'
                omega)
          have hge : ∀ x ∈ sk :: rowKeys pk ss, x ≠ dk := by
            intro x hx'
            rcases List.mem_cons.mp hx' with h' | h'
            · omega
            · have := hss_gt x h'
              omega
          refine ⟨.extra d :: E, ?_, ?_, ?_, ?_, by simp⟩
          · simp [row_pairs_go, hsk, hdk, heq, hlt, hE]
          · have hcg : (sk :: rowKeys pk ss).filter (fun k => keyMem k (dk :: rowKeys pk ds)) =
                (sk :: rowKeys pk ss).filter (fun k => keyMem k (rowKeys pk ds)) :=
              filter_congr_mem _ _ _ (fun x hx' => keyMem_cons_ne x dk _ (hge x hx'))
            rw [hkeys_s, hkeys_d]
            simp [List.filterMap_cons, eventMatchKey, hcg, hm]
          · have hcg : (sk :: rowKeys pk ss).filter (fun k => !keyMem k (dk :: rowKeys pk ds)) =
                (sk :: rowKeys pk ss).filter (fun k => !keyMem k (rowKeys pk ds)) :=
              filter_congr_mem _ _ _ (fun x hx' => by rw [keyMem_cons_ne x dk _ (hge x hx')])
            rw [hkeys_s, hkeys_d]
            simp [List.filterMap_cons, eventMissingKey, hcg, hmi]
          · rw [hkeys_s, hkeys_d]
            simp [List.filterMap_cons, eventExtraKey, hdk, List.filter_cons,
              hdkmem, hx]

/-- C3 (confirmed): over two streams that are strictly ordered by the
primary key (and whose rows all carry it), the walk terminates with an
event list that has exactly one comparison pair per shared key, one
`missing_in_dest` per source-only key, one `extra_in_dest` per
destination-only key — and an empty source makes every destination row
an `extra_in_dest`, with no comparison pair. -/
theorem C3_theorem (pk : String) (src dest : List WalkRow)
    (hs : ∀ r ∈ src, (List.lookup pk r).isSome = true)
    (hd : ∀ r ∈ dest, (List.lookup pk r).isSome = true)
    (hsort : (rowKeys pk src).Pairwise (· < ·))
    (hdsort : (rowKeys pk dest).Pairwise (· < ·)) :
    ∃ E, row_pairs pk src dest = .ok E ∧
      E.filterMap (eventMatchKey pk) =
        (rowKeys pk src).filter (fun k => keyMem k (rowKeys pk dest)) ∧
      E.filterMap (eventMissingKey pk) =
        (rowKeys pk src).filter (fun k => !keyMem k (rowKeys pk dest)) ∧
      E.filterMap (eventExtraKey pk) =
        (rowKeys pk dest).filter (fun k => !keyMem k (rowKeys pk src)) ∧
      (src = [] → E = dest.map Event.extra) :=
  row_pairs_go_spec pk (src.length + dest.length) src dest le_rfl hs hd hsort hdsort

/-- C3 witness: source keys `[1, 3]` against destination keys `[2, 3]`. -/
theorem C3_witness :
    ∃ E, row_pairs "id" [[("id", (1 : Int))], [("id", 3)]] [[("id", 2)], [("id", 3)]] = .ok E ∧
      E.filterMap (eventMatchKey "id") =
        (rowKeys "id" [[("id", (1 : Int))], [("id", 3)]]).filter
          (fun k => keyMem k (rowKeys "id" [[("id", (2 : Int))], [("id", 3)]])) ∧
      E.filterMap (eventMissingKey "id") =
        (rowKeys "id" [[("id", (1 : Int))], [("id", 3)]]).filter
          (fun k => !keyMem k (rowKeys "id" [[("id", (2 : Int))], [("id", 3)]])) ∧
      E.filterMap (eventExtraKey "id") =
        (rowKeys "id" [[("id", (2 : Int))], [("id", 3)]]).filter
          (fun k => !keyMem k (rowKeys "id" [[("id", (1 : Int))], [("id", 3)]])) ∧
      ([[("id", (1 : Int))], [("id", 3)]] = ([] : List WalkRow) →
        E = [[("id", (2 : Int))], [("id", 3)]].map Event.extra) :=
  C3_theorem "id" [[("id", (1 : Int))], [("id", 3)]] [[("id", 2)], [("id", 3)]]
    (by decide) (by decide) (by decide) (by decide)

/-- C5 (corrected): the walk performs no monotonicity check at all — on
any pair of streams whose rows carry the primary key, unsorted or not, it
completes with an ordinary event list and raises nothing. -/
theorem C5_theorem (pk : String) (src dest : List WalkRow)
    (hs : ∀ r ∈ src, (List.lookup pk r).isSome = true)
    (hd : ∀ r ∈ dest, (List.lookup pk r).isSome = true) :
    ∃ E, row_pairs pk src dest = .ok E :=
  row_pairs_go_ok pk (src.length + dest.length) src dest le_rfl hs hd

/-- C5 witness: the never-fails theorem applied to a source stream whose
keys `[2, 1]` are explicitly non-monotonic. -/
theorem C5_witness :
    ∃ E, row_pairs "id" [[("id", (2 : Int))], [("id", 1)]] [[("id", 1)], [("id", 2)]] = .ok E :=
  C5_theorem "id" [[("id", (2 : Int))], [("id", 1)]] [[("id", 1)], [("id", 2)]]
    (by decide) (by decide)

/-- C5 counterexample: fed a source whose keys run `2` then `1` (a
non-monotonic reader), the walk does not fail the partition or report any
diagnostic — it silently mis-classifies, emitting both an `extra_in_dest`
and a `missing_in_dest` for key `1`. -/
theorem C5_counterexample :
    row_pairs "id" [[("id", (2 : Int))], [("id", 1)]] [[("id", 1)], [("id", 2)]] =
      .ok [.extra [("id", 1)], .matched [("id", 2)] [("id", 2)], .missing [("id", 1)]] :=
  rfl

end TableSync
